import Mathlib

/-!
Shallow embedding of src/core/meme.py (astrbot_plugin_memelite).

The module is a facade (MemeManager) over an external meme-generation
library.  We embed its data model and operations as executable Lean
definitions:

* machine state (catalog, flattened keyword list, loaded flag) is an
  explicit structure, and the mutating load path is a state transformer;
* external calls (catalog fetch, resource check, parameter collection,
  rendering, generation) are inputs: their outcomes are passed in as
  values or as environment records of functions;
* Python code that can raise is embedded with Except; code that cannot
  raise keeps a plain return type.
-/

namespace Memelite

/-- Raw image bytes (a Python bytes object), as a list of byte values. -/
abbrev Bytes := List Nat

/-- Result of a preview or render call from the external binding: either an
in-memory buffer (io.BytesIO, whose getvalue yields the bytes) or raw
bytes.  Models the isinstance(previewed, io.BytesIO) distinction in
get_meme_info. -/
inductive PreviewResult where
  | buf (b : Bytes)
  | raw (b : Bytes)
deriving DecidableEq, Repr

/-- Models .getvalue() on a buffer result and the identity on raw bytes,
i.e. the normalization at src/core/meme.py lines 213-216. -/
def PreviewResult.toBytes : PreviewResult → Bytes
  | .buf b => b
  | .raw b => b

/-- Parameter-shape descriptor of a template (params_type in the legacy
binding, info.params in the current one; both expose the same fields
consumed by this module). -/
structure MemeParams where
  min_images : Nat
  max_images : Nat
  min_texts : Nat
  max_texts : Nat
  default_texts : List String
deriving DecidableEq, Repr

/-- A meme template as consumed by MemeManager: stable key, keyword/alias
list (m.keywords in the legacy binding, m.info.keywords in the current
one), parameter shape, tags, and the (deterministic) result of
generate_preview(). -/
structure Meme where
  key : String
  keywords : List String
  params : MemeParams
  tags : List String
  preview : PreviewResult
deriving DecidableEq, Repr

/-- Mutable state of MemeManager: the availability flag
(MEME_GENERATOR_AVAILABLE), the version flag (is_py_version, fixed at
construction), the catalog (self.memes), the flattened keyword list
(self.meme_keywords) and the loaded flag (self._memes_loaded). -/
structure MemeManager where
  available : Bool
  is_py_version : Bool
  memes : List Meme
  meme_keywords : List String
  memes_loaded : Bool
deriving DecidableEq, Repr

/-- MemeManager.__init__: empty catalog, empty keyword list, loaded flag
false.  The availability and version flags are fixed at construction. -/
def MemeManager.init (available is_py_version : Bool) : MemeManager :=
  { available := available
    is_py_version := is_py_version
    memes := []
    meme_keywords := []
    memes_loaded := false }

/-- Outcome of the try-block of _load_memes as driven by the external
library: get_memes() and the keyword flattening both succeed with the
given catalog, or an AttributeError escapes somewhere in the block, or
some other exception does. -/
inductive LoadOutcome where
  | ok (ms : List Meme)
  | attrError
  | otherError
deriving DecidableEq, Repr

/-- MemeManager._load_memes (src/core/meme.py lines 72-101) as a state
transformer.  Early return if already loaded or the library is missing.
On a successful fetch: self.memes is assigned first; an empty catalog
then returns early (keywords and flag untouched); otherwise the keyword
lists are flattened in catalog order and the loaded flag is set.  On
AttributeError or any other exception, catalog and keywords are reset to
empty and the flag is left false. -/
def load_memes (fetch : LoadOutcome) (st : MemeManager) : MemeManager :=
  if st.memes_loaded then st
  else if !st.available then st
  else
    match fetch with
    | .ok ms =>
      if ms.isEmpty then { st with memes := ms }
      else
        { st with
            memes := ms
            meme_keywords := ms.flatMap Meme.keywords
            memes_loaded := true }
    | .attrError => { st with memes := [], meme_keywords := [] }
    | .otherError => { st with memes := [], meme_keywords := [] }

/-- MemeManager.check_resources (lines 103-120): early return when the
library is missing; otherwise, whether the resource check is skipped by
configuration, succeeds, or fails (its failure is only logged), control
always reaches _load_memes.  The check outcome does not touch manager
state, so the state effect is exactly that of _load_memes. -/
def check_resources (_is_check_resources _check_ok : Bool)
    (fetch : LoadOutcome) (st : MemeManager) : MemeManager :=
  if !st.available then st
  else load_memes fetch st

/-- The per-template match test of find_meme (line 128):
keyword == meme.key or keyword in keywords. -/
def memeMatches (kw : String) (m : Meme) : Bool :=
  kw == m.key || m.keywords.contains kw

/-- MemeManager.find_meme (lines 122-129): none when not loaded, else the
first template in catalog order whose key equals the keyword or whose
keyword list contains it (the for loop falls through to an implicit
None). -/
def find_meme (st : MemeManager) (kw : String) : Option Meme :=
  if !st.memes_loaded then none
  else st.memes.find? (memeMatches kw)

/-- MemeManager.is_meme_keyword (lines 131-134): false when not loaded,
else membership in the flattened keyword list. -/
def is_meme_keyword (st : MemeManager) (meme_name : String) : Bool :=
  if !st.memes_loaded then false
  else st.meme_keywords.contains meme_name

/-- Exceptions this module can raise or pass through. -/
inductive PyErr where
  | indexError
  | exc (msg : String)
deriving DecidableEq, Repr

/-- Python whitespace as used by str.split() with no arguments
(Py_UNICODE_ISSPACE): the ASCII whitespace U+0009..U+000D and U+0020, the
file/group/record/unit separators U+001C..U+001F, next line U+0085,
no-break space U+00A0, ogham space mark U+1680, the en/em/etc spaces
U+2000..U+200A, line separator U+2028, paragraph separator U+2029,
narrow no-break space U+202F, medium mathematical space U+205F, and the
ideographic space U+3000. -/
def pyIsSpace (c : Char) : Bool :=
  let n := c.toNat
  (0x09 ≤ n && n ≤ 0x0d) || n == 0x20 || (0x1c ≤ n && n ≤ 0x1f)
    || n == 0x85 || n == 0xa0 || n == 0x1680
    || (0x2000 ≤ n && n ≤ 0x200a) || n == 0x2028 || n == 0x2029
    || n == 0x202f || n == 0x205f || n == 0x3000

/-- Splits a character list at every separator character (a separator
between two non-separators yields the two pieces; consecutive separators
yield empty pieces).  Executable counterpart of string splitting, used
both for str.split() and for splitting a description into lines. -/
def splitOnP (p : Char → Bool) : List Char → List (List Char)
  | [] => [[]]
  | c :: cs =>
    let r := splitOnP p cs
    if p c then [] :: r
    else
      match r with
      | l :: ls => (c :: l) :: ls
      | [] => [[c]]

/-- Python str.split() with no arguments: split on whitespace runs and
drop empty pieces; in particular the empty or all-whitespace string
splits to the empty list. -/
def pySplit (s : String) : List String :=
  ((splitOnP pyIsSpace s.data).filter (· ≠ [])).map (fun l => String.mk l)

/-- Python substring membership k in t. -/
def substrOf (k t : String) : Bool :=
  decide (k.data <:+: t.data)

/-- MemeManager.match_meme_keyword (lines 136-147).  Returns .ok none when
not loaded.  Fuzzy mode scans the flattened keyword list for the first
keyword occurring in the text.  Exact mode compares each keyword against
text.split()[0]; that subscript is evaluated lazily inside the generator,
so with an empty keyword list nothing is evaluated and None is returned,
but with a non-empty keyword list and a text with no whitespace-delimited
token the subscript raises IndexError, which propagates. -/
def match_meme_keyword (st : MemeManager) (text : String) (fuzzy_match : Bool) :
    Except PyErr (Option String) :=
  if !st.memes_loaded then .ok none
  else if fuzzy_match then
    .ok (st.meme_keywords.find? (fun k => substrOf k text))
  else
    match st.meme_keywords with
    | [] => .ok none
    | _ :: _ =>
      match pySplit text with
      | [] => .error .indexError
      | w :: _ => .ok (st.meme_keywords.find? (fun k => k == w))

/-- Per-template display record (dataclass MemeProperties, lines 31-34). -/
structure MemeProperties where
  disabled : Bool := false
  labels : List String := []
deriving DecidableEq, Repr

/-- External catalog-rendering capabilities, one per binding generation.
The legacy function returns an in-memory buffer on which the caller
invokes getvalue (we model the resulting bytes); the current function
returns bytes.  Both are deterministic functions of the arguments the
module passes. -/
structure RenderEnv where
  renderLegacy : List (Meme × MemeProperties) → Bytes
  renderCurrent : List (String × MemeProperties) → Bytes

/-- MemeManager.render_meme_list_image (lines 149-170): none when not
loaded; otherwise build the per-template display-properties collection
(all defaults, no exclusions) and delegate to the version-appropriate
external renderer. -/
def render_meme_list_image (env : RenderEnv) (st : MemeManager) : Option Bytes :=
  if !st.memes_loaded then none
  else if st.is_py_version then
    some (env.renderLegacy (st.memes.map (fun m => (m, { labels := [] }))))
  else
    some (env.renderCurrent (st.memes.map (fun m => (m.key, {}))))

/-- Decimal digit character (the digits emitted by Python str(int) for a
non-negative integer). -/
def digitChar (d : Nat) : Char :=
  match d with
  | 0 => '0' | 1 => '1' | 2 => '2' | 3 => '3' | 4 => '4'
  | 5 => '5' | 6 => '6' | 7 => '7' | 8 => '8' | _ => '9'

/-- Decimal digits, fuel-based recursion (the fuel n suffices since a
number shrinks strictly under division by ten). -/
def decDigitsAux : Nat → Nat → List Char
  | 0, n => [digitChar n]
  | fuel + 1, n =>
    if n < 10 then [digitChar n]
    else decDigitsAux fuel (n / 10) ++ [digitChar (n % 10)]

/-- Decimal digits of a natural number, most significant first. -/
def decDigits (n : Nat) : List Char :=
  decDigitsAux n n

/-- Python str() of a non-negative integer (decimal rendering), as used by
the f-strings in get_meme_info. -/
def decRepr (n : Nat) : String :=
  String.mk (decDigits n)

/-- Escaping of a single character inside Python repr() of a string with
quote character q (backslash, newline, carriage return, tab, and the
quote character itself are escaped; other characters pass through). -/
def pyEscChar (q c : Char) : List Char :=
  if c = '\\' then ['\\', '\\']
  else if c = '\n' then ['\\', 'n']
  else if c = '\r' then ['\\', 'r']
  else if c = '\t' then ['\\', 't']
  else if c = q then ['\\', q]
  else [c]

/-- Quote character chosen by Python repr() of a string: single quote,
unless the string contains a single quote and no double quote. -/
def pyQuote (s : String) : Char :=
  if s.data.contains '\'' && !(s.data.contains '"') then '"' else '\''

/-- Python repr() of a string (quote choice plus character escaping). -/
def pyReprStr (s : String) : String :=
  let q := pyQuote s
  String.mk (q :: (s.data.flatMap (pyEscChar q) ++ [q]))

/-- Comma-separated join, as used between the elements of Python str() of
a list. -/
def joinSep (sep : String) : List String → String
  | [] => ""
  | [s] => s
  | s :: t :: rest => s ++ sep ++ joinSep sep (t :: rest)

/-- Python str() of a list of strings (as interpolated by the f-strings in
get_meme_info for the alias, default-text and tag lines): bracketed,
comma-separated repr() of the elements. -/
def pyReprStrList (l : List String) : String :=
  "[" ++ joinSep ", " (l.map pyReprStr) ++ "]"

/-- The required-image-count line body of get_meme_info (lines 197-202):
a single count when min equals max, otherwise a range. -/
def imgLine (p : MemeParams) : String :=
  if p.min_images = p.max_images then
    "所需图片：" ++ decRepr p.min_images ++ "张"
  else
    "所需图片：" ++ decRepr p.min_images ++ "~" ++ decRepr p.max_images ++ "张"

/-- The required-text-count line body of get_meme_info (lines 203-208). -/
def txtLine (p : MemeParams) : String :=
  if p.min_texts = p.max_texts then
    "所需文本：" ++ decRepr p.min_texts ++ "段"
  else
    "所需文本：" ++ decRepr p.min_texts ++ "~" ++ decRepr p.max_texts ++ "段"

/-- The description string assembled by get_meme_info (lines 192-212):
six conditional newline-terminated chunks appended in order.  Python
truthiness of the guards: non-empty string for the key, non-empty list
for keywords, default texts and tags, strictly positive max counts. -/
def meme_info_str (m : Meme) : String :=
  (if m.key ≠ "" then ("名称：" ++ m.key) ++ "\n" else "")
  ++ (if m.keywords ≠ [] then ("别名：" ++ pyReprStrList m.keywords) ++ "\n" else "")
  ++ (if 0 < m.params.max_images then imgLine m.params ++ "\n" else "")
  ++ (if 0 < m.params.max_texts then txtLine m.params ++ "\n" else "")
  ++ (if m.params.default_texts ≠ [] then
        ("默认文本：" ++ pyReprStrList m.params.default_texts) ++ "\n" else "")
  ++ (if m.tags ≠ [] then ("标签：" ++ pyReprStrList m.tags) ++ "\n" else "")

/-- The same six conditional chunks as a list of line bodies (no newline
terminators); meme_info_str is their newline-terminated concatenation. -/
def comps (m : Meme) : List String :=
  (if m.key ≠ "" then ["名称：" ++ m.key] else [])
  ++ (if m.keywords ≠ [] then ["别名：" ++ pyReprStrList m.keywords] else [])
  ++ (if 0 < m.params.max_images then [imgLine m.params] else [])
  ++ (if 0 < m.params.max_texts then [txtLine m.params] else [])
  ++ (if m.params.default_texts ≠ [] then
        ["默认文本：" ++ pyReprStrList m.params.default_texts] else [])
  ++ (if m.tags ≠ [] then ["标签：" ++ pyReprStrList m.tags] else [])

/-- Lines of a string: its character data split at every newline. -/
def linesOf (s : String) : List (List Char) :=
  splitOnP (· = '\n') s.data

/-- MemeManager.get_meme_info (lines 172-217): resolve the keyword via
find_meme (none if unresolved), assemble the description, and return it
with the preview normalized to raw bytes. -/
def get_meme_info (st : MemeManager) (kw : String) : Option (String × Bytes) :=
  match find_meme st kw with
  | none => none
  | some meme => some (meme_info_str meme, meme.preview.toBytes)

/-- Chat event: opaque value passed through unexamined to the parameter
collector. -/
structure AstrMessageEvent where
  id : Nat
deriving DecidableEq, Repr

/-- Options structure returned by the collector and passed through to the
generator (opaque to this module). -/
abbrev Options := List (String × String)

/-- Named image record of the current binding (MemeImage / Image), built
from an (identifier, bytes) pair. -/
structure MemeImage where
  name : String
  data : Bytes
deriving DecidableEq, Repr

/-- External collaborators of generate_meme: the parameter collector and
the two generator shapes.  Each may raise (Except); the legacy generator
returns a buffer on which the caller invokes getvalue (we model the
resulting bytes). -/
structure GenEnv where
  collect : AstrMessageEvent → MemeParams →
    Except PyErr (List (String × Bytes) × List String × Options)
  runLegacy : Meme → List Bytes → List String → Options → Except PyErr Bytes
  runCurrent : Meme → List MemeImage → List String → Options → Except PyErr Bytes

/-- MemeManager.generate_meme (lines 219-237): resolve the keyword (none
if unresolved), collect parameters, adapt the image list to the selected
binding (legacy: bare bytes; current: named records), and invoke the
generator.  Collector and generator exceptions are not caught.  The
method writes no manager state; the returned state is the input state. -/
def generate_meme (env : GenEnv) (st : MemeManager) (event : AstrMessageEvent)
    (kw : String) : MemeManager × Except PyErr (Option Bytes) :=
  match find_meme st kw with
  | none => (st, .ok none)
  | some meme =>
    match env.collect event meme.params with
    | .error e => (st, .error e)
    | .ok (images, texts, options) =>
      if st.is_py_version then
        match env.runLegacy meme (images.map Prod.snd) texts options with
        | .error e => (st, .error e)
        | .ok b => (st, .ok (some b))
      else
        match env.runCurrent meme
            (images.map (fun i => MemeImage.mk i.1 i.2)) texts options with
        | .error e => (st, .error e)
        | .ok b => (st, .ok (some b))

/-- One invocation of a MemeManager method, with the outcomes of all
external calls it makes supplied as data. -/
inductive Op where
  | load (fetch : LoadOutcome)
  | check (is_check_resources check_ok : Bool) (fetch : LoadOutcome)
  | find (kw : String)
  | isKeyword (kw : String)
  | matchKeyword (text : String) (fuzzy : Bool)
  | render (env : RenderEnv)
  | info (kw : String)
  | generate (env : GenEnv) (event : AstrMessageEvent) (kw : String)

/-- State effect of one method invocation.  Only _load_memes (reached
directly or through check_resources) assigns to manager state in the
source; every query method is free of writes, so its state effect is the
identity. -/
def step : Op → MemeManager → MemeManager
  | .load fetch, st => load_memes fetch st
  | .check c ok fetch, st => check_resources c ok fetch st
  | .find _, st => st
  | .isKeyword _, st => st
  | .matchKeyword _ _, st => st
  | .render _, st => st
  | .info _, st => st
  | .generate env ev kw, st => (generate_meme env st ev kw).1

/-- States reachable from a freshly constructed manager by any sequence of
method invocations. -/
inductive Reachable : MemeManager → Prop where
  | init (available is_py_version : Bool) :
      Reachable (MemeManager.init available is_py_version)
  | step (op : Op) {st : MemeManager} :
      Reachable st → Reachable (Memelite.step op st)

/-- Data invariant tying the loaded flag to the catalog and the flattened
keyword list: while unloaded both are empty; once loaded the keyword list
is exactly the flattening of the catalog keyword lists and the catalog is
non-empty. -/
def Inv (st : MemeManager) : Prop :=
  (st.memes_loaded = false → st.memes = [] ∧ st.meme_keywords = [])
  ∧ (st.memes_loaded = true →
      st.meme_keywords = st.memes.flatMap Meme.keywords ∧ st.memes ≠ [])

/-! ### Concrete fixtures (used by the witness theorems) -/

/-- Example template: one image, no texts, a buffer preview. -/
def exM1 : Meme :=
  { key := "ksyx"
    keywords := ["kan-u", "shared"]
    params :=
      { min_images := 1, max_images := 1, min_texts := 0, max_texts := 0,
        default_texts := [] }
    tags := []
    preview := .buf [1, 2, 3] }

/-- Example template sharing the alias "shared" with exM1 but appearing
later in catalog order. -/
def exM2 : Meme :=
  { key := "other"
    keywords := ["shared"]
    params :=
      { min_images := 0, max_images := 0, min_texts := 1, max_texts := 2,
        default_texts := ["hi"] }
    tags := ["cute"]
    preview := .raw [9] }

/-- Freshly constructed manager (library available, current binding). -/
def exInit : MemeManager := MemeManager.init true false

/-- Manager after a successful load of the two example templates. -/
def exSt : MemeManager := step (Op.load (LoadOutcome.ok [exM1, exM2])) exInit

/-- Example rendering environment (constant outputs). -/
def exRenderEnv : RenderEnv :=
  { renderLegacy := fun _ => [7]
    renderCurrent := fun _ => [8] }

/-- Example generation environment whose collector always raises. -/
def exGenEnvCollectFail : GenEnv :=
  { collect := fun _ _ => .error (.exc "collect failed")
    runLegacy := fun _ _ _ _ => .ok [0]
    runCurrent := fun _ _ _ _ => .ok [0] }

/-- Example generation environment whose generator always raises. -/
def exGenEnvRunFail : GenEnv :=
  { collect := fun _ _ => .ok ([("1", [4])], ["t"], [])
    runLegacy := fun _ _ _ _ => .error (.exc "render failed")
    runCurrent := fun _ _ _ _ => .error (.exc "render failed") }

/-! ### Generic list lemmas: first-match characterisation of find? -/

theorem find?_eq_some_first {α : Type} (p : α → Bool) (l : List α) (a : α) :
    l.find? p = some a ↔
      p a = true ∧ ∃ l₁ l₂, l = l₁ ++ a :: l₂ ∧ ∀ x ∈ l₁, p x = false := by
  induction l with
  | nil => simp
  | cons c cs ih =>
    cases hc : p c with
    | true =>
      rw [List.find?_cons_of_pos _ hc]
      constructor
      · intro h
        injection h with h
        subst h
        exact ⟨hc, [], cs, rfl, by simp⟩
      · rintro ⟨ha, l₁, l₂, heq, hall⟩
        cases l₁ with
        | nil =>
          simp only [List.nil_append] at heq
          injection heq with h1 _
          rw [h1]
        | cons d ds =>
          simp only [List.cons_append] at heq
          injection heq with h1 _
          have hd : p d = false := hall d (by simp)
          rw [← h1, hc] at hd
          exact absurd hd (by simp)
    | false =>
      rw [List.find?_cons_of_neg _ (by simp [hc]), ih]
      constructor
      · rintro ⟨ha, l₁, l₂, rfl, hall⟩
        refine ⟨ha, c :: l₁, l₂, rfl, ?_⟩
        intro x hx
        rcases List.mem_cons.mp hx with rfl | hx
        · exact hc
        · exact hall x hx
      · rintro ⟨ha, l₁, l₂, heq, hall⟩
        cases l₁ with
        | nil =>
          simp only [List.nil_append] at heq
          injection heq with h1 _
          rw [← h1, hc] at ha
          exact absurd ha (by simp)
        | cons d ds =>
          simp only [List.cons_append] at heq
          injection heq with h1 h2
          refine ⟨ha, ds, l₂, h2, ?_⟩
          intro x hx
          exact hall x (by simp [hx])

theorem find?_append_first {α : Type} (p : α → Bool) :
    ∀ (l₁ : List α) (a : α) (l₂ : List α), p a = true →
      ∃ b, (l₁ ++ a :: l₂).find? p = some b ∧ (b ∈ l₁ ∨ b = a) := by
  intro l₁
  induction l₁ with
  | nil =>
    intro a l₂ ha
    exact ⟨a, by simp [List.find?_cons_of_pos _ ha], Or.inr rfl⟩
  | cons c cs ih =>
    intro a l₂ ha
    cases hc : p c with
    | true =>
      refine ⟨c, ?_, Or.inl (by simp)⟩
      simp [List.find?_cons_of_pos _ hc]
    | false =>
      obtain ⟨b, hb, hmem⟩ := ih a l₂ ha
      refine ⟨b, ?_, ?_⟩
      · rw [List.cons_append, List.find?_cons_of_neg _ (by simp [hc])]
        exact hb
      · rcases hmem with h | h
        · exact Or.inl (by simp [h])
        · exact Or.inr h

/-! ### Splitting lemmas -/

theorem splitOnP_nil (p : Char → Bool) : splitOnP p [] = [[]] := rfl

theorem splitOnP_append_chunk (p : Char → Bool) (body : List Char)
    (hbody : ∀ c ∈ body, p c = false) (sep : Char) (hsep : p sep = true)
    (rest : List Char) :
    splitOnP p (body ++ sep :: rest) = body :: splitOnP p rest := by
  induction body with
  | nil => simp [splitOnP, hsep]
  | cons c cs ih =>
    have hc : p c = false := hbody c (by simp)
    have ih2 := ih (fun x hx => hbody x (by simp [hx]))
    rw [List.cons_append]
    simp [splitOnP, hc, ih2]

theorem splitOnP_chunks (p : Char → Bool) (sep : Char) (hsep : p sep = true) :
    ∀ L : List (List Char), (∀ l ∈ L, ∀ c ∈ l, p c = false) →
      splitOnP p (List.flatten (L.map (fun l => l ++ [sep]))) = L ++ [[]] := by
  intro L
  induction L with
  | nil => intro _; simp [splitOnP]
  | cons l ls ih =>
    intro h
    simp only [List.map_cons, List.flatten_cons, List.append_assoc,
      List.singleton_append]
    rw [splitOnP_append_chunk p l (fun c hc => h l (by simp) c hc) sep hsep,
      ih (fun x hx c hc => h x (by simp [hx]) c hc)]
    simp

/-! ### Newline-freedom of the description line bodies -/

theorem no_nl_append {a b : String} (ha : '\n' ∉ a.data) (hb : '\n' ∉ b.data) :
    '\n' ∉ (a ++ b).data := by
  intro h
  rw [String.data_append] at h
  rcases List.mem_append.mp h with h | h
  · exact ha h
  · exact hb h

theorem digitChar_ne_nl (d : Nat) : digitChar d ≠ '\n' := by
  unfold digitChar
  split <;> decide

theorem decDigitsAux_no_nl (fuel : Nat) : ∀ n, '\n' ∉ decDigitsAux fuel n := by
  induction fuel with
  | zero =>
    intro n h
    simp only [decDigitsAux, List.mem_singleton] at h
    exact digitChar_ne_nl n h.symm
  | succ f ih =>
    intro n h
    simp only [decDigitsAux] at h
    split at h
    · simp only [List.mem_singleton] at h
      exact digitChar_ne_nl n h.symm
    · rcases List.mem_append.mp h with h | h
      · exact ih _ h
      · simp only [List.mem_singleton] at h
        exact digitChar_ne_nl _ h.symm

theorem decRepr_no_nl (n : Nat) : '\n' ∉ (decRepr n).data :=
  decDigitsAux_no_nl n n

theorem pyEscChar_no_nl (q c : Char) (hq : q ≠ '\n') : '\n' ∉ pyEscChar q c := by
  unfold pyEscChar
  split_ifs with h1 h2 h3 h4 h5
  · decide
  · decide
  · decide
  · decide
  · intro h
    rcases List.mem_pair.mp h with h | h
    · exact absurd h.symm (by decide)
    · exact hq h.symm
  · intro h
    rw [List.mem_singleton] at h
    exact h2 h.symm

theorem pyQuote_ne_nl (s : String) : pyQuote s ≠ '\n' := by
  unfold pyQuote
  split <;> decide

theorem pyReprStr_no_nl (s : String) : '\n' ∉ (pyReprStr s).data := by
  intro h
  unfold pyReprStr at h
  simp only [String.data] at h
  rcases List.mem_cons.mp h with h | h
  · exact pyQuote_ne_nl s h.symm
  · rcases List.mem_append.mp h with h | h
    · obtain ⟨c, -, hc⟩ := List.mem_flatMap.mp h
      exact pyEscChar_no_nl _ c (pyQuote_ne_nl s) hc
    · rw [List.mem_singleton] at h
      exact pyQuote_ne_nl s h.symm

theorem joinSep_no_nl (sep : String) (hsep : '\n' ∉ sep.data) :
    ∀ L : List String, (∀ s ∈ L, '\n' ∉ s.data) → '\n' ∉ (joinSep sep L).data := by
  intro L
  induction L with
  | nil => intro _; simp [joinSep]
  | cons s rest ih =>
    intro h
    cases rest with
    | nil => simpa [joinSep] using h s (by simp)
    | cons t r =>
      simp only [joinSep]
      exact no_nl_append (no_nl_append (h s (by simp)) hsep)
        (ih (fun x hx => h x (by simp [hx])))

theorem pyReprStrList_no_nl (l : List String) : '\n' ∉ (pyReprStrList l).data := by
  unfold pyReprStrList
  refine no_nl_append (no_nl_append (by decide) ?_) (by decide)
  refine joinSep_no_nl ", " (by decide) _ ?_
  intro s hs
  obtain ⟨x, -, rfl⟩ := List.mem_map.mp hs
  exact pyReprStr_no_nl x

theorem imgLine_no_nl (p : MemeParams) : '\n' ∉ (imgLine p).data := by
  unfold imgLine
  split
  · exact no_nl_append (no_nl_append (by decide) (decRepr_no_nl _)) (by decide)
  · exact no_nl_append (no_nl_append (no_nl_append
      (no_nl_append (by decide) (decRepr_no_nl _)) (by decide))
      (decRepr_no_nl _)) (by decide)

theorem txtLine_no_nl (p : MemeParams) : '\n' ∉ (txtLine p).data := by
  unfold txtLine
  split
  · exact no_nl_append (no_nl_append (by decide) (decRepr_no_nl _)) (by decide)
  · exact no_nl_append (no_nl_append (no_nl_append
      (no_nl_append (by decide) (decRepr_no_nl _)) (by decide))
      (decRepr_no_nl _)) (by decide)

theorem mem_if_singleton {α : Type} (c : Prop) [Decidable c] (a x : α) :
    a ∈ (if c then [x] else []) ↔ c ∧ a = x := by
  by_cases h : c <;> simp [h]

theorem comps_no_nl (m : Meme) (hk : '\n' ∉ m.key.data) :
    ∀ l ∈ comps m, '\n' ∉ l.data := by
  intro l hl
  simp only [comps, List.mem_append, mem_if_singleton] at hl
  rcases hl with ((((⟨-, rfl⟩ | ⟨-, rfl⟩) | ⟨-, rfl⟩) | ⟨-, rfl⟩) | ⟨-, rfl⟩) | ⟨-, rfl⟩
  · exact no_nl_append (by decide) hk
  · exact no_nl_append (by decide) (pyReprStrList_no_nl _)
  · exact imgLine_no_nl _
  · exact txtLine_no_nl _
  · exact no_nl_append (by decide) (pyReprStrList_no_nl _)
  · exact no_nl_append (by decide) (pyReprStrList_no_nl _)

/-! ### Lines of the description -/

theorem data_if_chunk (c : Prop) [Decidable c] (body : String) :
    (if c then body ++ "\n" else "").data
      = List.flatten ((if c then [body] else []).map (fun s => s.data ++ ['\n'])) := by
  by_cases h : c <;> simp [h, String.data_append]

theorem meme_info_data (m : Meme) :
    (meme_info_str m).data
      = List.flatten ((comps m).map (fun s => s.data ++ ['\n'])) := by
  unfold meme_info_str comps
  simp only [String.data_append, data_if_chunk, List.map_append,
    List.flatten_append, List.append_assoc]

theorem linesOf_meme_info (m : Meme) (hk : '\n' ∉ m.key.data) :
    linesOf (meme_info_str m) = (comps m).map String.data ++ [[]] := by
  unfold linesOf
  rw [meme_info_data]
  have hmap : (comps m).map (fun s => s.data ++ ['\n'])
      = ((comps m).map String.data).map (fun l => l ++ ['\n']) := by
    simp [List.map_map]
  rw [hmap]
  apply splitOnP_chunks _ _ (by simp)
  intro l hl c hc
  obtain ⟨s, hs, rfl⟩ := List.mem_map.mp hl
  simp only [decide_eq_false_iff_not]
  intro hcn
  subst hcn
  exact comps_no_nl m hk s hs hc

/-! ### State-machine helper lemmas and the reachability invariant -/

theorem load_memes_of_loaded (st : MemeManager) (h : st.memes_loaded = true)
    (fetch : LoadOutcome) : load_memes fetch st = st := by
  unfold load_memes
  simp [h]

theorem generate_meme_fst (env : GenEnv) (st : MemeManager)
    (ev : AstrMessageEvent) (kw : String) : (generate_meme env st ev kw).1 = st := by
  unfold generate_meme
  repeat' split
  all_goals rfl

theorem load_memes_available (fetch : LoadOutcome) (st : MemeManager) :
    (load_memes fetch st).available = st.available := by
  unfold load_memes
  repeat' split
  all_goals rfl

theorem inv_load (fetch : LoadOutcome) (st : MemeManager) (h : Inv st) :
    Inv (load_memes fetch st) := by
  cases hl : st.memes_loaded with
  | true => rw [load_memes_of_loaded st hl]; exact h
  | false =>
    cases fetch with
    | ok ms =>
      simp only [load_memes, hl, Bool.false_eq_true, if_false]
      split
      · exact h
      split
      next hms =>
        exact ⟨fun _ => ⟨List.isEmpty_iff.mp hms, (h.1 hl).2⟩,
          fun hc => absurd hc (by simp)⟩
      next hms =>
        refine ⟨fun hc => absurd hc (by simp), fun _ => ⟨rfl, ?_⟩⟩
        intro hnil
        have hnil2 : ms = [] := hnil
        rw [hnil2] at hms
        simp at hms
    | attrError =>
      simp only [load_memes, hl, Bool.false_eq_true, if_false]
      split
      · exact h
      exact ⟨fun _ => ⟨rfl, rfl⟩, fun hc => absurd hc (by simp)⟩
    | otherError =>
      simp only [load_memes, hl, Bool.false_eq_true, if_false]
      split
      · exact h
      exact ⟨fun _ => ⟨rfl, rfl⟩, fun hc => absurd hc (by simp)⟩

theorem inv_step (op : Op) (st : MemeManager) (h : Inv st) : Inv (step op st) := by
  cases op with
  | load fetch => exact inv_load fetch st h
  | check c ok fetch =>
    show Inv (check_resources c ok fetch st)
    unfold check_resources
    split
    · exact h
    · exact inv_load fetch st h
  | find _ => exact h
  | isKeyword _ => exact h
  | matchKeyword _ _ => exact h
  | render _ => exact h
  | info _ => exact h
  | generate env ev kw =>
    show Inv (generate_meme env st ev kw).1
    rw [generate_meme_fst]
    exact h

theorem reachable_inv {st : MemeManager} (h : Reachable st) : Inv st := by
  induction h with
  | init a b =>
    refine ⟨fun _ => ⟨rfl, rfl⟩, fun hc => ?_⟩
    exact absurd hc (by simp [MemeManager.init])
  | step op _ ih => exact inv_step op _ ih

theorem reachable_unloaded_empty {st : MemeManager} (h : Reachable st)
    (hl : st.memes_loaded = false) : st.memes = [] ∧ st.meme_keywords = [] :=
  (reachable_inv h).1 hl

theorem reachable_loaded_keywords {st : MemeManager} (h : Reachable st)
    (hl : st.memes_loaded = true) :
    st.meme_keywords = st.memes.flatMap Meme.keywords :=
  ((reachable_inv h).2 hl).1

/-! ### Marker-prefix helper lemmas -/

theorem not_pre_append (m mk s : List Char) (h1 : ¬ m <+: mk)
    (h2 : ¬ mk <+: m) : ¬ m <+: (mk ++ s) := by
  intro h
  have h3 : mk <+: mk ++ s := List.prefix_append mk s
  rcases List.prefix_or_prefix_of_prefix h h3 with h4 | h4
  · exact h1 h4
  · exact h2 h4

theorem pre_marker_append (mk x : String) : mk.data <+: (mk ++ x).data := by
  rw [String.data_append]
  exact List.prefix_append _ _

theorem not_pre_marker {M Mk : String} (x : String) (h1 : ¬ M.data <+: Mk.data)
    (h2 : ¬ Mk.data <+: M.data) : ¬ M.data <+: (Mk ++ x).data := by
  rw [String.data_append]
  exact not_pre_append _ _ _ h1 h2

theorem imgLine_data_marker (p : MemeParams) :
    ∃ x : String, imgLine p = "所需图片：" ++ x := by
  unfold imgLine
  split
  · refine ⟨decRepr p.min_images ++ "张", ?_⟩
    apply String.ext
    simp [String.data_append]
  · refine ⟨decRepr p.min_images ++ "~" ++ decRepr p.max_images ++ "张", ?_⟩
    apply String.ext
    simp [String.data_append]

theorem txtLine_data_marker (p : MemeParams) :
    ∃ x : String, txtLine p = "所需文本：" ++ x := by
  unfold txtLine
  split
  · refine ⟨decRepr p.min_texts ++ "段", ?_⟩
    apply String.ext
    simp [String.data_append]
  · refine ⟨decRepr p.min_texts ++ "~" ++ decRepr p.max_texts ++ "段", ?_⟩
    apply String.ext
    simp [String.data_append]

theorem mem_comps_iff (m : Meme) (l : String) :
    l ∈ comps m ↔
      (m.key ≠ "" ∧ l = "名称：" ++ m.key)
      ∨ (m.keywords ≠ [] ∧ l = "别名：" ++ pyReprStrList m.keywords)
      ∨ (0 < m.params.max_images ∧ l = imgLine m.params)
      ∨ (0 < m.params.max_texts ∧ l = txtLine m.params)
      ∨ (m.params.default_texts ≠ [] ∧
          l = "默认文本：" ++ pyReprStrList m.params.default_texts)
      ∨ (m.tags ≠ [] ∧ l = "标签：" ++ pyReprStrList m.tags) := by
  simp only [comps, List.mem_append, mem_if_singleton, or_assoc]

/-! ### Evaluation lemmas for match_meme_keyword -/

theorem match_eval_fuzzy (st : MemeManager) (text : String)
    (hld : st.memes_loaded = true) :
    match_meme_keyword st text true
      = .ok (st.meme_keywords.find? (fun k => substrOf k text)) := by
  unfold match_meme_keyword
  simp [hld]

theorem match_eval_exact (st : MemeManager) (text : String)
    (hld : st.memes_loaded = true) (w : String) (ws : List String)
    (hsplit : pySplit text = w :: ws) :
    match_meme_keyword st text false
      = .ok (st.meme_keywords.find? (fun k => k == w)) := by
  unfold match_meme_keyword
  simp only [hld, Bool.not_true, Bool.false_eq_true, if_false, if_true]
  cases hkw : st.meme_keywords with
  | nil => simp [hkw]
  | cons a as => simp [hkw, hsplit]

theorem match_eval_exact_empty (st : MemeManager) (text : String)
    (hld : st.memes_loaded = true) (hkw : st.meme_keywords = []) :
    match_meme_keyword st text false = .ok none := by
  unfold match_meme_keyword
  simp [hld, hkw]

theorem match_eval_exact_err (st : MemeManager) (text : String)
    (hld : st.memes_loaded = true) (hkw : st.meme_keywords ≠ [])
    (hsplit : pySplit text = []) :
    match_meme_keyword st text false = .error .indexError := by
  unfold match_meme_keyword
  simp only [hld, Bool.not_true, Bool.false_eq_true, if_false, if_true]
  cases hkw2 : st.meme_keywords with
  | nil => exact absurd hkw2 hkw
  | cons a as => simp [hkw2, hsplit]

/-! ### Which marker-prefixed lines occur among the description chunks -/

theorem exists_line_iff (L : List String) (M : String) (hM : M.data ≠ []) :
    (∃ l ∈ L.map String.data ++ [[]], M.data <+: l)
      ↔ ∃ s ∈ L, M.data <+: s.data := by
  constructor
  · rintro ⟨l, hl, hp⟩
    rcases List.mem_append.mp hl with hl | hl
    · obtain ⟨s, hs, rfl⟩ := List.mem_map.mp hl
      exact ⟨s, hs, hp⟩
    · rw [List.mem_singleton] at hl
      subst hl
      exact absurd (List.prefix_nil.mp hp) hM
  · rintro ⟨s, hs, hp⟩
    exact ⟨s.data, List.mem_append.mpr (Or.inl (List.mem_map.mpr ⟨s, hs, rfl⟩)),
      hp⟩

theorem comps_marker_name (m : Meme) :
    (∃ s ∈ comps m, "名称：".data <+: s.data) ↔ m.key ≠ "" := by
  constructor
  · rintro ⟨s, hs, hp⟩
    rcases (mem_comps_iff m s).mp hs with ⟨hc, rfl⟩ | ⟨hc, rfl⟩ | ⟨hc, rfl⟩ |
      ⟨hc, rfl⟩ | ⟨hc, rfl⟩ | ⟨hc, rfl⟩
    · exact hc
    · exact absurd hp (not_pre_marker _ (by decide) (by decide))
    · obtain ⟨x, hx⟩ := imgLine_data_marker m.params
      rw [hx] at hp
      exact absurd hp (not_pre_marker _ (by decide) (by decide))
    · obtain ⟨x, hx⟩ := txtLine_data_marker m.params
      rw [hx] at hp
      exact absurd hp (not_pre_marker _ (by decide) (by decide))
    · exact absurd hp (not_pre_marker _ (by decide) (by decide))
    · exact absurd hp (not_pre_marker _ (by decide) (by decide))
  · intro hc
    exact ⟨"名称：" ++ m.key, (mem_comps_iff m _).mpr (Or.inl ⟨hc, rfl⟩),
      pre_marker_append _ _⟩

theorem comps_marker_img (m : Meme) :
    (∃ s ∈ comps m, "所需图片：".data <+: s.data) ↔ 0 < m.params.max_images := by
  constructor
  · rintro ⟨s, hs, hp⟩
    rcases (mem_comps_iff m s).mp hs with ⟨hc, rfl⟩ | ⟨hc, rfl⟩ | ⟨hc, rfl⟩ |
      ⟨hc, rfl⟩ | ⟨hc, rfl⟩ | ⟨hc, rfl⟩
    · exact absurd hp (not_pre_marker _ (by decide) (by decide))
    · exact absurd hp (not_pre_marker _ (by decide) (by decide))
    · exact hc
    · obtain ⟨x, hx⟩ := txtLine_data_marker m.params
      rw [hx] at hp
      exact absurd hp (not_pre_marker _ (by decide) (by decide))
    · exact absurd hp (not_pre_marker _ (by decide) (by decide))
    · exact absurd hp (not_pre_marker _ (by decide) (by decide))
  · intro hc
    obtain ⟨x, hx⟩ := imgLine_data_marker m.params
    refine ⟨imgLine m.params,
      (mem_comps_iff m _).mpr (Or.inr (Or.inr (Or.inl ⟨hc, rfl⟩))), ?_⟩
    rw [hx]
    exact pre_marker_append _ _

theorem comps_marker_txt (m : Meme) :
    (∃ s ∈ comps m, "所需文本：".data <+: s.data) ↔ 0 < m.params.max_texts := by
  constructor
  · rintro ⟨s, hs, hp⟩
    rcases (mem_comps_iff m s).mp hs with ⟨hc, rfl⟩ | ⟨hc, rfl⟩ | ⟨hc, rfl⟩ |
      ⟨hc, rfl⟩ | ⟨hc, rfl⟩ | ⟨hc, rfl⟩
    · exact absurd hp (not_pre_marker _ (by decide) (by decide))
    · exact absurd hp (not_pre_marker _ (by decide) (by decide))
    · obtain ⟨x, hx⟩ := imgLine_data_marker m.params
      rw [hx] at hp
      exact absurd hp (not_pre_marker _ (by decide) (by decide))
    · exact hc
    · exact absurd hp (not_pre_marker _ (by decide) (by decide))
    · exact absurd hp (not_pre_marker _ (by decide) (by decide))
  · intro hc
    obtain ⟨x, hx⟩ := txtLine_data_marker m.params
    refine ⟨txtLine m.params,
      (mem_comps_iff m _).mpr (Or.inr (Or.inr (Or.inr (Or.inl ⟨hc, rfl⟩)))), ?_⟩
    rw [hx]
    exact pre_marker_append _ _

theorem comps_marker_default (m : Meme) :
    (∃ s ∈ comps m, "默认文本：".data <+: s.data)
      ↔ m.params.default_texts ≠ [] := by
  constructor
  · rintro ⟨s, hs, hp⟩
    rcases (mem_comps_iff m s).mp hs with ⟨hc, rfl⟩ | ⟨hc, rfl⟩ | ⟨hc, rfl⟩ |
      ⟨hc, rfl⟩ | ⟨hc, rfl⟩ | ⟨hc, rfl⟩
    · exact absurd hp (not_pre_marker _ (by decide) (by decide))
    · exact absurd hp (not_pre_marker _ (by decide) (by decide))
    · obtain ⟨x, hx⟩ := imgLine_data_marker m.params
      rw [hx] at hp
      exact absurd hp (not_pre_marker _ (by decide) (by decide))
    · obtain ⟨x, hx⟩ := txtLine_data_marker m.params
      rw [hx] at hp
      exact absurd hp (not_pre_marker _ (by decide) (by decide))
    · exact hc
    · exact absurd hp (not_pre_marker _ (by decide) (by decide))
  · intro hc
    exact ⟨"默认文本：" ++ pyReprStrList m.params.default_texts,
      (mem_comps_iff m _).mpr
        (Or.inr (Or.inr (Or.inr (Or.inr (Or.inl ⟨hc, rfl⟩))))),
      pre_marker_append _ _⟩

theorem comps_marker_tags (m : Meme) :
    (∃ s ∈ comps m, "标签：".data <+: s.data) ↔ m.tags ≠ [] := by
  constructor
  · rintro ⟨s, hs, hp⟩
    rcases (mem_comps_iff m s).mp hs with ⟨hc, rfl⟩ | ⟨hc, rfl⟩ | ⟨hc, rfl⟩ |
      ⟨hc, rfl⟩ | ⟨hc, rfl⟩ | ⟨hc, rfl⟩
    · exact absurd hp (not_pre_marker _ (by decide) (by decide))
    · exact absurd hp (not_pre_marker _ (by decide) (by decide))
    · obtain ⟨x, hx⟩ := imgLine_data_marker m.params
      rw [hx] at hp
      exact absurd hp (not_pre_marker _ (by decide) (by decide))
    · obtain ⟨x, hx⟩ := txtLine_data_marker m.params
      rw [hx] at hp
      exact absurd hp (not_pre_marker _ (by decide) (by decide))
    · exact absurd hp (not_pre_marker _ (by decide) (by decide))
    · exact hc
  · intro hc
    exact ⟨"标签：" ++ pyReprStrList m.tags,
      (mem_comps_iff m _).mpr
        (Or.inr (Or.inr (Or.inr (Or.inr (Or.inr ⟨hc, rfl⟩))))),
      pre_marker_append _ _⟩

/-! ### Claim theorems -/

/-- C1: for a loaded catalog, find_meme returns exactly the first template
in catalog order whose stable key equals the keyword or whose keyword
list contains it (so when two templates share an alias the earlier one
wins), and it returns none when the catalog is not loaded or when no
template matches. -/
theorem c1_find_meme_first_match (st : MemeManager) (kw : String) :
    (st.memes_loaded = false → find_meme st kw = none)
    ∧ (st.memes_loaded = true →
        (∀ m : Meme, find_meme st kw = some m ↔
            memeMatches kw m = true ∧
            ∃ pre post, st.memes = pre ++ m :: post ∧
              ∀ x ∈ pre, memeMatches kw x = false)
        ∧ (find_meme st kw = none ↔ ∀ m ∈ st.memes, memeMatches kw m = false)
        ∧ (∀ pre m post, st.memes = pre ++ m :: post →
            memeMatches kw m = true →
            ∃ b, find_meme st kw = some b ∧ (b ∈ pre ∨ b = m))) := by
  constructor
  · intro h
    unfold find_meme
    simp [h]
  · intro h
    have hf : find_meme st kw = st.memes.find? (memeMatches kw) := by
      unfold find_meme
      simp [h]
    refine ⟨fun m => ?_, ?_, ?_⟩
    · rw [hf]
      exact find?_eq_some_first _ _ _
    · rw [hf]
      simp [List.find?_eq_none]
    · intro pre m post heq hm
      rw [hf, heq]
      exact find?_append_first _ pre m post hm

/-- Witness for C1 on the concrete two-template catalog: both templates
carry the alias "shared" and the earlier one is returned; lookup by the
stable key also succeeds; an unmatched keyword yields none. -/
theorem c1_witness :
    exSt.memes_loaded = true ∧
      find_meme exSt "shared" = some exM1 ∧
      find_meme exSt "other" = some exM2 ∧
      find_meme exSt "nope" = none := by
  refine ⟨rfl, ?_, ?_, ?_⟩
  · exact ((c1_find_meme_first_match exSt "shared").2 rfl).1 exM1
      |>.mpr ⟨by decide, [], [exM2], rfl, by simp⟩
  · exact ((c1_find_meme_first_match exSt "other").2 rfl).1 exM2
      |>.mpr ⟨by decide, [exM1], [], rfl, by decide⟩
  · exact ((c1_find_meme_first_match exSt "nope").2 rfl).2.1
      |>.mpr (by decide)

/-- C2 (amended): for a loaded catalog, fuzzy matching returns exactly the
first keyword, in keyword-flattening order (catalog iteration order then
per-template keyword-list order), occurring as a substring of the text;
exact matching returns exactly the first keyword equal to the first
whitespace-delimited token of the text, provided such a token exists (or
the keyword list is empty, in which case it returns none); but in exact
mode with a non-empty keyword list and a text with no whitespace-delimited
token the subscript text.split()[0] raises IndexError instead of
returning. -/
theorem c2_match_keyword_order (st : MemeManager) (text : String)
    (hr : Reachable st) (hld : st.memes_loaded = true) :
    st.meme_keywords = st.memes.flatMap Meme.keywords
    ∧ (∀ k, match_meme_keyword st text true = .ok (some k) ↔
        substrOf k text = true ∧
        ∃ pre post, st.meme_keywords = pre ++ k :: post ∧
          ∀ x ∈ pre, substrOf x text = false)
    ∧ (match_meme_keyword st text true = .ok none ↔
        ∀ k ∈ st.meme_keywords, substrOf k text = false)
    ∧ (∀ w ws, pySplit text = w :: ws →
        ∀ k, match_meme_keyword st text false = .ok (some k) ↔
          (k == w) = true ∧
          ∃ pre post, st.meme_keywords = pre ++ k :: post ∧
            ∀ x ∈ pre, (x == w) = false)
    ∧ (st.meme_keywords = [] → match_meme_keyword st text false = .ok none)
    ∧ (st.meme_keywords ≠ [] → pySplit text = [] →
        match_meme_keyword st text false = .error .indexError) := by
  refine ⟨reachable_loaded_keywords hr hld, ?_, ?_, ?_, ?_, ?_⟩
  · intro k
    rw [match_eval_fuzzy st text hld]
    simp only [Except.ok.injEq]
    exact find?_eq_some_first _ _ _
  · rw [match_eval_fuzzy st text hld]
    simp [List.find?_eq_none]
  · intro w ws hsplit k
    rw [match_eval_exact st text hld w ws hsplit]
    simp only [Except.ok.injEq]
    exact find?_eq_some_first _ _ _
  · exact match_eval_exact_empty st text hld
  · exact match_eval_exact_err st text hld

/-- Witness for C2 on the loaded example catalog: fuzzy matching finds the
keyword kan-u inside a longer message, exact matching finds the keyword
shared as the first token, and a leading ideographic space U+3000 is
whitespace for tokenization, so the first token of the third text is
again shared. -/
theorem c2_witness :
    exSt.memes_loaded = true ∧
      match_meme_keyword exSt "say kan-u now" true = .ok (some "kan-u") ∧
      match_meme_keyword exSt "shared now" false = .ok (some "shared") ∧
      match_meme_keyword exSt "\u3000shared\u3000now" false
        = .ok (some "shared") := by
  have h := c2_match_keyword_order exSt "say kan-u now"
    (Reachable.step _ (Reachable.init true false)) rfl
  have h2 := c2_match_keyword_order exSt "shared now"
    (Reachable.step _ (Reachable.init true false)) rfl
  have h3 := c2_match_keyword_order exSt "\u3000shared\u3000now"
    (Reachable.step _ (Reachable.init true false)) rfl
  refine ⟨rfl, ?_, ?_, ?_⟩
  · exact (h.2.1 "kan-u").mpr ⟨by decide, [], ["shared", "shared"], rfl, by simp⟩
  · exact (h2.2.2.2.1 "shared" ["now"] (by decide) "shared").mpr
      ⟨by decide, ["kan-u"], ["shared"], rfl, by decide⟩
  · exact (h3.2.2.2.1 "shared" ["now"] (by decide) "shared").mpr
      ⟨by decide, ["kan-u"], ["shared"], rfl, by decide⟩

/-- C2 counterexample: with a loaded non-empty keyword list, exact-mode
matching on the empty text does not return at all; the evaluation of
text.split()[0] raises IndexError. -/
theorem c2_counterexample :
    match_meme_keyword exSt "" false = .error .indexError ∧
      ∀ r : Option String, match_meme_keyword exSt "" false ≠ .ok r := by
  refine ⟨rfl, ?_⟩
  intro r h
  rw [show match_meme_keyword exSt "" false = .error .indexError from rfl] at h
  exact Except.noConfusion h

/-- C3 (amended): match_meme_keyword returns none and does not raise
whenever the catalog is unloaded (either mode, any text) or no keyword
matches (fuzzy mode always; exact mode whenever the text has a first
whitespace-delimited token or the keyword list is empty); the one
exception is exact mode with a loaded non-empty keyword list and a text
with no whitespace-delimited token, where it raises IndexError. -/
theorem c3_match_keyword_safe (st : MemeManager) (text : String) (fz : Bool) :
    (st.memes_loaded = false → match_meme_keyword st text fz = .ok none)
    ∧ (st.memes_loaded = true →
        ((∀ k ∈ st.meme_keywords, substrOf k text = false) →
          match_meme_keyword st text true = .ok none)
        ∧ (st.meme_keywords = [] → match_meme_keyword st text false = .ok none)
        ∧ (∀ w ws, pySplit text = w :: ws →
            (∀ k ∈ st.meme_keywords, (k == w) = false) →
            match_meme_keyword st text false = .ok none)
        ∧ (st.meme_keywords ≠ [] → pySplit text = [] →
            match_meme_keyword st text false = .error .indexError)) := by
  constructor
  · intro h
    unfold match_meme_keyword
    simp [h]
  · intro hld
    refine ⟨?_, match_eval_exact_empty st text hld, ?_,
      match_eval_exact_err st text hld⟩
    · intro hall
      rw [match_eval_fuzzy st text hld, List.find?_eq_none.mpr ?_]
      intro x hx
      simp [hall x hx]
    · intro w ws hsplit hall
      rw [match_eval_exact st text hld w ws hsplit, List.find?_eq_none.mpr ?_]
      intro x hx
      simp [hall x hx]

/-- Witness for C3: with the catalog unloaded any text (even the empty
one) yields none in both modes; with the loaded example catalog an
unmatched text yields none in both modes; and the exception clause fires
on a no-break-space-only text (U+00A0 is whitespace to str.split(), so
the text has no token and exact mode raises IndexError). -/
theorem c3_witness :
    match_meme_keyword exInit "" false = .ok none ∧
      match_meme_keyword exInit "" true = .ok none ∧
      match_meme_keyword exSt "xyz abc" false = .ok none ∧
      match_meme_keyword exSt "xyz" true = .ok none ∧
      match_meme_keyword exSt "\u00A0" false = .error .indexError := by
  refine ⟨(c3_match_keyword_safe exInit "" false).1 rfl,
    (c3_match_keyword_safe exInit "" true).1 rfl, ?_, ?_, ?_⟩
  · exact ((c3_match_keyword_safe exSt "xyz abc" false).2 rfl).2.2.1
      "xyz" ["abc"] (by decide) (by decide)
  · exact ((c3_match_keyword_safe exSt "xyz" true).2 rfl).1 (by decide)
  · exact ((c3_match_keyword_safe exSt "\u00A0" false).2 rfl).2.2.2
      (by decide) (by decide)

/-- C3 counterexample: the claim says a whitespace-only text with no
matching keyword yields none without raising, but with the loaded
non-empty example keyword list, exact-mode matching on a single space
raises IndexError. -/
theorem c3_counterexample :
    match_meme_keyword exSt " " false = .error .indexError ∧
      ∀ r : Option String, match_meme_keyword exSt " " false ≠ .ok r := by
  refine ⟨rfl, ?_⟩
  intro r h
  rw [show match_meme_keyword exSt " " false = .error .indexError from rfl] at h
  exact Except.noConfusion h

/-- C4: before any successful load (loaded flag false), every query
returns not-found/none/false: find_meme none, is_meme_keyword false,
match_meme_keyword ok-none (in either mode, for any text, so in
particular no exception is raised), render_meme_list_image none and
get_meme_info none. -/
theorem c4_unloaded_queries (st : MemeManager) (h : st.memes_loaded = false)
    (kw text : String) (fz : Bool) (renv : RenderEnv) :
    find_meme st kw = none
    ∧ is_meme_keyword st kw = false
    ∧ match_meme_keyword st text fz = .ok none
    ∧ render_meme_list_image renv st = none
    ∧ get_meme_info st kw = none := by
  have hf : find_meme st kw = none := by
    unfold find_meme
    simp [h]
  refine ⟨hf, ?_, ?_, ?_, ?_⟩
  · unfold is_meme_keyword
    simp [h]
  · unfold match_meme_keyword
    simp [h]
  · unfold render_meme_list_image
    simp [h]
  · unfold get_meme_info
    rw [hf]

/-- Witness for C4 on a freshly constructed manager (loaded flag false),
with the empty text in exact mode as the query text. -/
theorem c4_witness :
    exInit.memes_loaded = false ∧
      find_meme exInit "shared" = none ∧
      is_meme_keyword exInit "shared" = false ∧
      match_meme_keyword exInit "" false = .ok none ∧
      render_meme_list_image exRenderEnv exInit = none ∧
      get_meme_info exInit "shared" = none :=
  ⟨rfl, c4_unloaded_queries exInit rfl "shared" "" false exRenderEnv⟩

/-- C5: once the loaded flag is true, no operation changes the manager
state at all — in particular the flag never reverts to false and neither
the catalog nor the flattened keyword list is ever mutated — and this
persists over any sequence of operations. -/
theorem c5_loaded_stable (st : MemeManager) (h : st.memes_loaded = true) :
    (∀ op, step op st = st)
    ∧ (∀ ops : List Op, ops.foldl (fun s op => step op s) st = st) := by
  have h1 : ∀ op, step op st = st := by
    intro op
    cases op with
    | load fetch => exact load_memes_of_loaded st h fetch
    | check c ok fetch =>
      show check_resources c ok fetch st = st
      unfold check_resources
      split
      · rfl
      · exact load_memes_of_loaded st h fetch
    | find _ => rfl
    | isKeyword _ => rfl
    | matchKeyword _ _ => rfl
    | render _ => rfl
    | info _ => rfl
    | generate env ev kw => exact generate_meme_fst env st ev kw
  refine ⟨h1, ?_⟩
  intro ops
  induction ops with
  | nil => rfl
  | cons op rest ih =>
    rw [List.foldl_cons, h1 op]
    exact ih

/-- Witness for C5 on the loaded example manager. -/
theorem c5_witness :
    exSt.memes_loaded = true ∧
      (∀ op, step op exSt = exSt) ∧
      (∀ ops : List Op, ops.foldl (fun s op => step op s) exSt = exSt) :=
  ⟨rfl, c5_loaded_stable exSt rfl⟩

/-- C6: invoking the load path when the loaded flag is already true is a
no-op for every possible fetch outcome, and the result does not depend on
the fetch outcome at all (the guard returns before any external fetch is
issued). -/
theorem c6_load_idempotent (st : MemeManager) (h : st.memes_loaded = true) :
    (∀ fetch, load_memes fetch st = st)
    ∧ (∀ f1 f2, load_memes f1 st = load_memes f2 st) := by
  refine ⟨fun fetch => load_memes_of_loaded st h fetch, fun f1 f2 => ?_⟩
  rw [load_memes_of_loaded st h f1, load_memes_of_loaded st h f2]

/-- Witness for C6 on the loaded example manager. -/
theorem c6_witness :
    exSt.memes_loaded = true ∧
      (∀ fetch, load_memes fetch exSt = exSt) ∧
      (∀ f1 f2, load_memes f1 exSt = load_memes f2 exSt) :=
  ⟨rfl, c6_load_idempotent exSt rfl⟩

/-- C7: when a load attempt is made (manager reachable, not yet loaded,
library available) and the fetch returns an empty catalog or raises an
AttributeError or any other exception, the loaded flag stays false and
catalog and keyword collection are both empty afterwards; a subsequent
load call with a successful non-empty fetch then sets the flag. -/
theorem c7_failed_load_resets (st : MemeManager) (hr : Reachable st)
    (hl : st.memes_loaded = false) (hav : st.available = true)
    (fetch : LoadOutcome)
    (hf : fetch = .ok [] ∨ fetch = .attrError ∨ fetch = .otherError) :
    (load_memes fetch st).memes_loaded = false
    ∧ (load_memes fetch st).memes = []
    ∧ (load_memes fetch st).meme_keywords = []
    ∧ (∀ ms : List Meme, ms ≠ [] →
        (load_memes (.ok ms) (load_memes fetch st)).memes_loaded = true) := by
  have hkw : st.meme_keywords = [] := (reachable_unloaded_empty hr hl).2
  have hretry : ∀ st2 : MemeManager, st2.memes_loaded = false →
      st2.available = true → ∀ ms : List Meme, ms ≠ [] →
      (load_memes (.ok ms) st2).memes_loaded = true := by
    intro st2 h2 ha2 ms hms
    unfold load_memes
    simp [h2, ha2, List.isEmpty_iff, hms]
  rcases hf with rfl | rfl | rfl
  · have heval : load_memes (.ok []) st = { st with memes := [] } := by
      unfold load_memes
      simp [hl, hav]
    rw [heval]
    exact ⟨hl, rfl, hkw,
      fun ms hms => hretry { st with memes := [] } hl hav ms hms⟩
  · have heval : load_memes .attrError st
        = { st with memes := [], meme_keywords := [] } := by
      unfold load_memes
      simp [hl, hav]
    rw [heval]
    exact ⟨hl, rfl, rfl,
      fun ms hms => hretry { st with memes := [], meme_keywords := [] } hl hav ms hms⟩
  · have heval : load_memes .otherError st
        = { st with memes := [], meme_keywords := [] } := by
      unfold load_memes
      simp [hl, hav]
    rw [heval]
    exact ⟨hl, rfl, rfl,
      fun ms hms => hretry { st with memes := [], meme_keywords := [] } hl hav ms hms⟩

/-- Witness for C7: a fresh manager, an empty-catalog fetch; afterwards
the flag is false, everything is empty, and a retry with the two example
templates succeeds. -/
theorem c7_witness :
    exInit.memes_loaded = false ∧
      (load_memes (.ok []) exInit).memes_loaded = false ∧
      (load_memes (.ok []) exInit).memes = [] ∧
      (load_memes (.ok []) exInit).meme_keywords = [] ∧
      (load_memes (.ok [exM1, exM2]) (load_memes (.ok []) exInit)).memes_loaded
        = true := by
  have h := c7_failed_load_resets exInit (Reachable.init true false) rfl rfl
    (.ok []) (Or.inl rfl)
  exact ⟨rfl, h.1, h.2.1, h.2.2.1, h.2.2.2 [exM1, exM2] (by simp)⟩

/-- C9: generate_meme returns none when the keyword resolves to no
template (in particular whenever the catalog is unloaded), and any
exception raised by the parameter collector or by the external generator
(under either binding) propagates to the caller uncaught; in every case
the manager state is returned unchanged. -/
theorem c9_generate_meme_spec (env : GenEnv) (st : MemeManager)
    (ev : AstrMessageEvent) (kw : String) :
    (generate_meme env st ev kw).1 = st
    ∧ (find_meme st kw = none → generate_meme env st ev kw = (st, .ok none))
    ∧ (st.memes_loaded = false → generate_meme env st ev kw = (st, .ok none))
    ∧ (∀ m e, find_meme st kw = some m → env.collect ev m.params = .error e →
        generate_meme env st ev kw = (st, .error e))
    ∧ (∀ m imgs txts opts e, find_meme st kw = some m →
        env.collect ev m.params = .ok (imgs, txts, opts) →
        st.is_py_version = true →
        env.runLegacy m (imgs.map Prod.snd) txts opts = .error e →
        generate_meme env st ev kw = (st, .error e))
    ∧ (∀ m imgs txts opts e, find_meme st kw = some m →
        env.collect ev m.params = .ok (imgs, txts, opts) →
        st.is_py_version = false →
        env.runCurrent m (imgs.map (fun i => MemeImage.mk i.1 i.2)) txts opts
          = .error e →
        generate_meme env st ev kw = (st, .error e)) := by
  refine ⟨generate_meme_fst env st ev kw, ?_, ?_, ?_, ?_, ?_⟩
  · intro h
    unfold generate_meme
    rw [h]
  · intro h
    have hf : find_meme st kw = none := by
      unfold find_meme
      simp [h]
    unfold generate_meme
    rw [hf]
  · intro m e hm hc
    unfold generate_meme
    rw [hm]
    simp [hc]
  · intro m imgs txts opts e hm hc hpy hrun
    unfold generate_meme
    rw [hm]
    simp [hc, hpy, hrun]
  · intro m imgs txts opts e hm hc hpy hrun
    unfold generate_meme
    rw [hm]
    simp [hc, hpy, hrun]

/-- Witness for C9: unresolved keyword and unloaded catalog give ok-none;
a raising collector and a raising generator each propagate their
exception, with the state passed through unchanged. -/
theorem c9_witness :
    generate_meme exGenEnvCollectFail exSt ⟨0⟩ "nope" = (exSt, .ok none) ∧
      generate_meme exGenEnvCollectFail exInit ⟨0⟩ "shared"
        = (exInit, .ok none) ∧
      generate_meme exGenEnvCollectFail exSt ⟨0⟩ "shared"
        = (exSt, .error (.exc "collect failed")) ∧
      generate_meme exGenEnvRunFail exSt ⟨0⟩ "shared"
        = (exSt, .error (.exc "render failed")) := by
  refine ⟨?_, ?_, ?_, ?_⟩
  · exact (c9_generate_meme_spec exGenEnvCollectFail exSt ⟨0⟩ "nope").2.1
      (by decide)
  · exact (c9_generate_meme_spec exGenEnvCollectFail exInit ⟨0⟩ "shared").2.2.1
      rfl
  · exact (c9_generate_meme_spec exGenEnvCollectFail exSt ⟨0⟩ "shared").2.2.2.1
      exM1 (.exc "collect failed") (by decide) rfl
  · exact (c9_generate_meme_spec exGenEnvRunFail exSt ⟨0⟩ "shared").2.2.2.2.2
      exM1 [("1", [4])] ["t"] [] (.exc "render failed") (by decide) rfl rfl rfl

/-- C10: the flattened keyword set built at load contains only the
templates' keyword lists and never their stable keys: in any reachable
loaded state, a template whose key occurs in no keyword list (and which
is the unique owner of its key) fails is_meme_keyword but is still
returned by find_meme on that key. -/
theorem c10_keywords_exclude_keys (st : MemeManager) (hr : Reachable st)
    (hld : st.memes_loaded = true) (m : Meme) (hm : m ∈ st.memes)
    (hkey : ∀ x ∈ st.memes, m.key ∉ x.keywords)
    (huniq : ∀ x ∈ st.memes, x.key = m.key → x = m) :
    is_meme_keyword st m.key = false ∧ find_meme st m.key = some m := by
  constructor
  · unfold is_meme_keyword
    simp only [hld, Bool.not_true, Bool.false_eq_true, if_false]
    rw [reachable_loaded_keywords hr hld]
    have hnot : m.key ∉ st.memes.flatMap Meme.keywords := by
      intro hmem
      obtain ⟨x, hx, hkx⟩ := List.mem_flatMap.mp hmem
      exact hkey x hx hkx
    simpa using hnot
  · have hsome : (st.memes.find? (memeMatches m.key)).isSome = true := by
      refine List.find?_isSome.mpr ⟨m, hm, ?_⟩
      simp [memeMatches]
    obtain ⟨b, hb⟩ := Option.isSome_iff_exists.mp hsome
    have hmatch := List.find?_some hb
    have hbmem := List.mem_of_find?_eq_some hb
    have hbkey : b.key = m.key := by
      simp only [memeMatches, Bool.or_eq_true, beq_iff_eq] at hmatch
      rcases hmatch with h | h
      · exact h.symm
      · exact absurd (by simpa using h) (hkey b hbmem)
    have hbm : b = m := huniq b hbmem hbkey
    unfold find_meme
    simp only [hld, Bool.not_true, Bool.false_eq_true, if_false]
    rw [hb, hbm]

/-- Witness for C10: the key ksyx of the first example template occurs in
no keyword list; is_meme_keyword rejects it while find_meme resolves
it. -/
theorem c10_witness :
    is_meme_keyword exSt "ksyx" = false ∧ find_meme exSt "ksyx" = some exM1 := by
  have h := c10_keywords_exclude_keys exSt
    (Reachable.step _ (Reachable.init true false)) rfl exM1
    (by decide) (by decide) (by decide)
  exact h

/-- C8: for every resolved template (with a key free of newlines, so that
the line structure of the description is well defined), get_meme_info
returns the assembled description together with the preview normalized to
raw bytes; the lines of the description are exactly the conditional
chunks, and in particular the name line appears iff the key is non-empty,
the required-image-count line appears iff max_images is positive (as a
single count when min equals max and as a range otherwise), the analogous
required-text-count line appears iff max_texts is positive, the
default-texts line appears iff default texts exist, and the tags line
appears iff tags exist. -/
theorem c8_get_meme_info_desc (st : MemeManager) (kw : String) (m : Meme)
    (d : String) (img : Bytes)
    (hm : find_meme st kw = some m)
    (hd : get_meme_info st kw = some (d, img))
    (hk : '\n' ∉ m.key.data) :
    d = meme_info_str m
    ∧ img = m.preview.toBytes
    ∧ (∀ b, m.preview = PreviewResult.buf b → img = b)
    ∧ (∀ b, m.preview = PreviewResult.raw b → img = b)
    ∧ linesOf d = (comps m).map String.data ++ [[]]
    ∧ ((∃ l ∈ linesOf d, "名称：".data <+: l) ↔ m.key ≠ "")
    ∧ ((∃ l ∈ linesOf d, "所需图片：".data <+: l) ↔ 0 < m.params.max_images)
    ∧ (0 < m.params.max_images → m.params.min_images = m.params.max_images →
        ("所需图片：" ++ decRepr m.params.min_images ++ "张").data ∈ linesOf d)
    ∧ (0 < m.params.max_images → m.params.min_images ≠ m.params.max_images →
        ("所需图片：" ++ decRepr m.params.min_images ++ "~"
          ++ decRepr m.params.max_images ++ "张").data ∈ linesOf d)
    ∧ ((∃ l ∈ linesOf d, "所需文本：".data <+: l) ↔ 0 < m.params.max_texts)
    ∧ (0 < m.params.max_texts → m.params.min_texts = m.params.max_texts →
        ("所需文本：" ++ decRepr m.params.min_texts ++ "段").data ∈ linesOf d)
    ∧ (0 < m.params.max_texts → m.params.min_texts ≠ m.params.max_texts →
        ("所需文本：" ++ decRepr m.params.min_texts ++ "~"
          ++ decRepr m.params.max_texts ++ "段").data ∈ linesOf d)
    ∧ ((∃ l ∈ linesOf d, "默认文本：".data <+: l)
        ↔ m.params.default_texts ≠ [])
    ∧ ((∃ l ∈ linesOf d, "标签：".data <+: l) ↔ m.tags ≠ []) := by
  unfold get_meme_info at hd
  rw [hm] at hd
  simp only [Option.some.injEq, Prod.mk.injEq] at hd
  obtain ⟨hd1, hd2⟩ := hd
  subst hd1
  have hlines := linesOf_meme_info m hk
  refine ⟨rfl, hd2.symm, ?_, ?_, hlines, ?_, ?_, ?_, ?_, ?_, ?_, ?_, ?_, ?_⟩
  · intro b hb
    rw [← hd2, hb]
    rfl
  · intro b hb
    rw [← hd2, hb]
    rfl
  · rw [hlines]
    exact (exists_line_iff (comps m) _ (by decide)).trans (comps_marker_name m)
  · rw [hlines]
    exact (exists_line_iff (comps m) _ (by decide)).trans (comps_marker_img m)
  · intro h1 h2
    rw [hlines]
    have hval : imgLine m.params
        = "所需图片：" ++ decRepr m.params.min_images ++ "张" := by
      unfold imgLine
      rw [if_pos h2]
    refine List.mem_append.mpr (Or.inl (List.mem_map.mpr
      ⟨imgLine m.params,
        (mem_comps_iff m _).mpr (Or.inr (Or.inr (Or.inl ⟨h1, rfl⟩))), ?_⟩))
    rw [hval]
  · intro h1 h2
    rw [hlines]
    have hval : imgLine m.params
        = "所需图片：" ++ decRepr m.params.min_images ++ "~"
            ++ decRepr m.params.max_images ++ "张" := by
      unfold imgLine
      rw [if_neg h2]
    refine List.mem_append.mpr (Or.inl (List.mem_map.mpr
      ⟨imgLine m.params,
        (mem_comps_iff m _).mpr (Or.inr (Or.inr (Or.inl ⟨h1, rfl⟩))), ?_⟩))
    rw [hval]
  · rw [hlines]
    exact (exists_line_iff (comps m) _ (by decide)).trans (comps_marker_txt m)
  · intro h1 h2
    rw [hlines]
    have hval : txtLine m.params
        = "所需文本：" ++ decRepr m.params.min_texts ++ "段" := by
      unfold txtLine
      rw [if_pos h2]
    refine List.mem_append.mpr (Or.inl (List.mem_map.mpr
      ⟨txtLine m.params,
        (mem_comps_iff m _).mpr
          (Or.inr (Or.inr (Or.inr (Or.inl ⟨h1, rfl⟩)))), ?_⟩))
    rw [hval]
  · intro h1 h2
    rw [hlines]
    have hval : txtLine m.params
        = "所需文本：" ++ decRepr m.params.min_texts ++ "~"
            ++ decRepr m.params.max_texts ++ "段" := by
      unfold txtLine
      rw [if_neg h2]
    refine List.mem_append.mpr (Or.inl (List.mem_map.mpr
      ⟨txtLine m.params,
        (mem_comps_iff m _).mpr
          (Or.inr (Or.inr (Or.inr (Or.inl ⟨h1, rfl⟩)))), ?_⟩))
    rw [hval]
  · rw [hlines]
    exact (exists_line_iff (comps m) _ (by decide)).trans
      (comps_marker_default m)
  · rw [hlines]
    exact (exists_line_iff (comps m) _ (by decide)).trans (comps_marker_tags m)

/-- Witness for C8 on the second example template, resolved via its stable
key: its max_images is zero so no image-count line appears, its min and
max text counts differ so the text-count line takes the range form, and
its raw preview bytes pass through unchanged. -/
theorem c8_witness :
    find_meme exSt "other" = some exM2 ∧
      get_meme_info exSt "other"
        = some (meme_info_str exM2, exM2.preview.toBytes) ∧
      ¬ (∃ l ∈ linesOf (meme_info_str exM2), "所需图片：".data <+: l) ∧
      ("所需文本：" ++ decRepr 1 ++ "~" ++ decRepr 2 ++ "段").data
        ∈ linesOf (meme_info_str exM2) ∧
      exM2.preview.toBytes = [9] := by
  have h := c8_get_meme_info_desc exSt "other" exM2
    (meme_info_str exM2) (exM2.preview.toBytes) (by decide) rfl (by decide)
  refine ⟨by decide, rfl, ?_, ?_, rfl⟩
  · intro hex
    have := h.2.2.2.2.2.2.1.mp hex
    exact absurd this (by decide)
  · exact h.2.2.2.2.2.2.2.2.2.2.2.1 (by decide) (by decide)

end Memelite
